import Mathlib

/-!
Shallow embedding of the Metropolis-Hastings sampler of the Monte_Carlo
repository and the two pi estimators, with theorems checking the claims of
the specification.

The sampler under verification is the notebook function

  def metropolis_hastings(rng, chain_start, n, logtarget, candidate_generating_density):
      x = chain_start
      chain = np.zeros(2 * n).reshape(2,n)
      accepted = 0
      for i in range(n):
          candidate = candidate_generating_density(x)
          if np.log(rng.uniform()) < logtarget(candidate) - logtarget(x):
              x = candidate
              accepted += 1
          chain[:,i] = x.reshape(2,)
      print ... accepted over n as a percentage ...
      return chain

Numeric values are modelled by the type RVal: an IEEE-style extension of the
reals with positive infinity, negative infinity and NaN, with subtraction and
the strict order following IEEE 754 semantics (any comparison involving NaN is
false), which is what numpy floats implement.  The random source is modelled by
two explicit streams: u i is the uniform variate consumed by the accept test of
iteration i, and pr i is the randomness consumed by the proposal at iteration i.
-/

/-- IEEE-style value: a finite real, one of the two infinities, or NaN. -/
inductive RVal where
  | fin (x : ℝ)
  | posInf
  | negInf
  | nan

/-- IEEE subtraction on extended values, as numpy floats implement it:
infinities of the same sign subtract to NaN, and NaN is absorbing. -/
def RVal.sub : RVal → RVal → RVal
  | fin a, fin b => fin (a - b)
  | fin _, negInf => posInf
  | fin _, posInf => negInf
  | fin _, nan => nan
  | negInf, fin _ => negInf
  | negInf, negInf => nan
  | negInf, posInf => negInf
  | negInf, nan => nan
  | posInf, fin _ => posInf
  | posInf, negInf => posInf
  | posInf, posInf => nan
  | posInf, nan => nan
  | nan, _ => nan

/-- IEEE strict less-than on extended values: any comparison involving NaN
is false, negative infinity is below every non-NaN value except itself. -/
noncomputable def RVal.lt : RVal → RVal → Bool
  | fin a, fin b => decide (a < b)
  | fin _, posInf => true
  | fin _, negInf => false
  | fin _, nan => false
  | negInf, fin _ => true
  | negInf, posInf => true
  | negInf, negInf => false
  | negInf, nan => false
  | posInf, _ => false
  | nan, _ => false

/-- The numpy log on a float: log of a negative number is NaN, log 0 is
negative infinity, log of a positive number is the real logarithm. -/
noncomputable def npLog (u : ℝ) : RVal :=
  if u < 0 then RVal.nan
  else if u = 0 then RVal.negInf
  else RVal.fin (Real.log u)

/-- The accept test of one iteration of the sampler, exactly as in the source:
np.log(rng.uniform()) < logtarget(candidate) - logtarget(x), with u the
uniform variate drawn this iteration. -/
noncomputable def acceptTest (u : ℝ) (ltCand ltX : RVal) : Bool :=
  RVal.lt (npLog u) (RVal.sub ltCand ltX)

/-- Loop state of the sampler: the current position x, the chain entries
recorded so far (column i of the numpy buffer, in iteration order), and the
accepted counter. -/
structure MHState where
  x : List ℝ
  chain : List (List ℝ)
  accepted : ℕ

/-- Errors the Python run can raise, plus the InvalidArgument condition named
by the error taxonomy of the specification (which the source never raises).
negativeDimensions is the ValueError raised by np.zeros(2 * n) for n < 0;
cannotReshape is the ValueError raised by x.reshape(2,) when x does not have
exactly 2 elements; zeroDivision is the ZeroDivisionError raised by the
acceptance-rate print when n = 0. -/
inductive MHError where
  | negativeDimensions
  | cannotReshape
  | zeroDivision
  | invalidArgument
deriving DecidableEq

/-- One iteration of the sampler loop at index i: draw the candidate from the
proposal, run the accept test, then record the (possibly updated) state x as
the chain entry of this iteration; recording performs x.reshape(2,), which fails
unless x has exactly 2 elements. -/
noncomputable def mhIter (lt : List ℝ → RVal) (prop : List ℝ → List ℝ → List ℝ)
    (pr : ℕ → List ℝ) (u : ℕ → ℝ) (i : ℕ) (s : MHState) : Except MHError MHState :=
  let candidate := prop s.x (pr i)
  let b := acceptTest (u i) (lt candidate) (lt s.x)
  let x1 := if b then candidate else s.x
  let a1 := if b then s.accepted + 1 else s.accepted
  if x1.length = 2 then Except.ok ⟨x1, s.chain ++ [x1], a1⟩
  else Except.error MHError.cannotReshape

/-- The for-loop of the sampler: run k remaining iterations starting at
iteration index i, stopping at the first error. -/
noncomputable def mhLoop (lt : List ℝ → RVal) (prop : List ℝ → List ℝ → List ℝ)
    (pr : ℕ → List ℝ) (u : ℕ → ℝ) : ℕ → ℕ → MHState → Except MHError MHState
  | _, 0, s => Except.ok s
  | i, k + 1, s =>
    match mhIter lt prop pr u i s with
    | Except.error e => Except.error e
    | Except.ok t => mhLoop lt prop pr u (i + 1) k t

/-- A full sampler run of n iterations from the starting point: the loop of
metropolis_hastings, beginning with an empty chain and accepted = 0. -/
noncomputable def mhRun (lt : List ℝ → RVal) (prop : List ℝ → List ℝ → List ℝ)
    (pr : ℕ → List ℝ) (u : ℕ → ℝ) (chain_start : List ℝ) (n : ℕ) :
    Except MHError MHState :=
  mhLoop lt prop pr u 0 n ⟨chain_start, [], 0⟩

/-- The metropolis_hastings function itself, over an integer n as in Python:
np.zeros(2 * n) raises ValueError for n < 0 before the loop; after the loop
the print of the acceptance rate divides accepted by n, raising
ZeroDivisionError for n = 0; on success the function returns only the chain. -/
noncomputable def metropolis_hastings (lt : List ℝ → RVal)
    (prop : List ℝ → List ℝ → List ℝ) (pr : ℕ → List ℝ) (u : ℕ → ℝ)
    (chain_start : List ℝ) (n : ℤ) : Except MHError (List (List ℝ)) :=
  if n < 0 then Except.error MHError.negativeDimensions
  else
    match mhRun lt prop pr u chain_start n.toNat with
    | Except.error e => Except.error e
    | Except.ok s =>
      if n = 0 then Except.error MHError.zeroDivision
      else Except.ok s.chain

/-- The value printed by the diagnostic line of the sampler: the acceptance rate
accepted over n, as a percentage. -/
noncomputable def mhPrintedRate (accepted : ℕ) (n : ℤ) : ℝ :=
  ((accepted : ℝ) / (n : ℝ)) * 100

/-- The squared-norm array of the vectorized pi estimator: x * x + y * y computed
elementwise over the sampled points. -/
def sum_of_squares (pts : List (ℝ × ℝ)) : List ℝ :=
  pts.map (fun p => p.1 * p.1 + p.2 * p.2)

/-- The boolean mask of the vectorized pi estimator: sum_of_squares < 1. -/
noncomputable def circleMask (pts : List (ℝ × ℝ)) : List Bool :=
  (sum_of_squares pts).map (fun s => decide (s < 1))

/-- np.sum over a boolean array: the number of True entries. -/
def npSumBool (bs : List Bool) : ℕ :=
  (bs.map (fun b => if b then 1 else 0)).sum

/-- The vectorized pi estimate of the notebook:
(np.sum(x * x + y * y < 1) / n) * 4. -/
noncomputable def pi_estimate (pts : List (ℝ × ℝ)) : ℝ :=
  ((npSumBool (circleMask pts) : ℝ) / (pts.length : ℝ)) * 4

/-- The counter of the for-loop pi estimator: count is incremented once for each
point with u * u + v * v < 1. -/
noncomputable def loopCount (pts : List (ℝ × ℝ)) : ℕ :=
  pts.foldl (fun count p => if p.1 * p.1 + p.2 * p.2 < 1 then count + 1 else count) 0

/-- The for-loop pi estimate of the notebook: (count / n) * 4. -/
noncomputable def pi_est (pts : List (ℝ × ℝ)) : ℝ :=
  ((loopCount pts : ℝ) / (pts.length : ℝ)) * 4


/-- No value is IEEE-less-than negative infinity. -/
theorem RVal.lt_negInf (v : RVal) : RVal.lt v RVal.negInf = false := by
  cases v <;> rfl

/-- No value is IEEE-less-than NaN: comparisons with NaN are always false. -/
theorem RVal.lt_nan (v : RVal) : RVal.lt v RVal.nan = false := by
  cases v <;> rfl

/-- For a flat target the log-density difference is fin 0, and the accept test
passes for every uniform draw in [0, 1): np.log(0) is negative infinity, which
is below 0, and the real logarithm of u in (0, 1) is negative. -/
theorem acceptTest_flat (u c : ℝ) (h0 : 0 ≤ u) (h1 : u < 1) :
    acceptTest u (RVal.fin c) (RVal.fin c) = true := by
  have hsub : RVal.sub (RVal.fin c) (RVal.fin c) = RVal.fin 0 := by
    simp [RVal.sub]
  unfold acceptTest
  rw [hsub]
  unfold npLog
  rcases eq_or_lt_of_le h0 with h | h
  · rw [if_neg (not_lt.mpr h0), if_pos h.symm]
    rfl
  · rw [if_neg (not_lt.mpr h0), if_neg (ne_of_gt h)]
    simp [RVal.lt]
    exact Real.log_neg h h1

/-- An iteration whose accept test passes moves to the candidate, appends it
to the chain, and increments the accepted counter. -/
theorem mhIter_accept (lt : List ℝ → RVal) (prop : List ℝ → List ℝ → List ℝ)
    (pr : ℕ → List ℝ) (u : ℕ → ℝ) (i : ℕ) (s : MHState)
    (h : acceptTest (u i) (lt (prop s.x (pr i))) (lt s.x) = true)
    (hl : (prop s.x (pr i)).length = 2) :
    mhIter lt prop pr u i s =
      Except.ok ⟨prop s.x (pr i), s.chain ++ [prop s.x (pr i)], s.accepted + 1⟩ := by
  simp [mhIter, h, hl]

/-- An iteration whose accept test fails keeps the state, appends the old
state to the chain, and leaves the accepted counter unchanged. -/
theorem mhIter_reject (lt : List ℝ → RVal) (prop : List ℝ → List ℝ → List ℝ)
    (pr : ℕ → List ℝ) (u : ℕ → ℝ) (i : ℕ) (s : MHState)
    (h : acceptTest (u i) (lt (prop s.x (pr i))) (lt s.x) = false)
    (hl : s.x.length = 2) :
    mhIter lt prop pr u i s = Except.ok ⟨s.x, s.chain ++ [s.x], s.accepted⟩ := by
  simp [mhIter, h, hl]

/-- If neither the candidate nor the current state has exactly 2 elements,
the recording step x.reshape(2,) fails whatever the accept test decides. -/
theorem mhIter_reshape_fails (lt : List ℝ → RVal) (prop : List ℝ → List ℝ → List ℝ)
    (pr : ℕ → List ℝ) (u : ℕ → ℝ) (i : ℕ) (s : MHState)
    (hc : (prop s.x (pr i)).length ≠ 2) (hx : s.x.length ≠ 2) :
    mhIter lt prop pr u i s = Except.error MHError.cannotReshape := by
  unfold mhIter
  rcases Bool.eq_false_or_eq_true (acceptTest (u i) (lt (prop s.x (pr i))) (lt s.x)) with h | h
  · simp [h, hc, hx]
  · simp [h, hc, hx]

/-- Inversion for a successful iteration: the new state is the candidate with
the counter incremented, or the old state with the counter unchanged; either
way exactly one chain entry, equal to the new state, is appended, and the
recorded state has exactly 2 elements. -/
theorem mhIter_ok_cases (lt : List ℝ → RVal) (prop : List ℝ → List ℝ → List ℝ)
    (pr : ℕ → List ℝ) (u : ℕ → ℝ) (i : ℕ) (s s1 : MHState)
    (h : mhIter lt prop pr u i s = Except.ok s1) :
    ((s1.x = prop s.x (pr i) ∧ s1.accepted = s.accepted + 1) ∨
      (s1.x = s.x ∧ s1.accepted = s.accepted)) ∧
    s1.chain = s.chain ++ [s1.x] ∧ s1.x.length = 2 := by
  rcases Bool.eq_false_or_eq_true (acceptTest (u i) (lt (prop s.x (pr i))) (lt s.x))
    with hb | hb
  · by_cases hlen : (prop s.x (pr i)).length = 2
    · rw [mhIter_accept lt prop pr u i s hb hlen, Except.ok.injEq] at h
      subst h
      exact ⟨Or.inl ⟨rfl, rfl⟩, rfl, hlen⟩
    · have he : mhIter lt prop pr u i s = Except.error MHError.cannotReshape := by
        unfold mhIter
        simp [hb, hlen]
      rw [he] at h
      exact absurd h (by simp)
  · by_cases hlen : s.x.length = 2
    · rw [mhIter_reject lt prop pr u i s hb hlen, Except.ok.injEq] at h
      subst h
      exact ⟨Or.inr ⟨rfl, rfl⟩, rfl, hlen⟩
    · have he : mhIter lt prop pr u i s = Except.error MHError.cannotReshape := by
        unfold mhIter
        simp [hb, hlen]
      rw [he] at h
      exact absurd h (by simp)

/-- Loop invariant: starting from a 2-element state, with a proposal that
always produces 2-element candidates, k iterations succeed and append exactly
k chain entries, ending again in a 2-element state. -/
theorem mhLoop_ok (lt : List ℝ → RVal) (prop : List ℝ → List ℝ → List ℝ)
    (pr : ℕ → List ℝ) (u : ℕ → ℝ) (hp : ∀ x r, (prop x r).length = 2) :
    ∀ (k i : ℕ) (s : MHState), s.x.length = 2 →
      ∃ t : MHState, mhLoop lt prop pr u i k s = Except.ok t ∧
        t.chain.length = s.chain.length + k ∧ t.x.length = 2 := by
  intro k
  induction k with
  | zero =>
    intro i s hs
    exact ⟨s, rfl, by simp, hs⟩
  | succ k ih =>
    intro i s hs
    rcases Bool.eq_false_or_eq_true (acceptTest (u i) (lt (prop s.x (pr i))) (lt s.x))
      with hb | hb
    · have hit := mhIter_accept lt prop pr u i s hb (hp s.x (pr i))
      rcases ih (i + 1) ⟨prop s.x (pr i), s.chain ++ [prop s.x (pr i)], s.accepted + 1⟩
        (hp s.x (pr i)) with ⟨t, ht, hlen, hx⟩
      refine ⟨t, ?_, ?_, hx⟩
      · rw [mhLoop, hit]
        exact ht
      · simp only [List.length_append, List.length_singleton] at hlen
        omega
    · have hit := mhIter_reject lt prop pr u i s hb hs
      rcases ih (i + 1) ⟨s.x, s.chain ++ [s.x], s.accepted⟩ hs with ⟨t, ht, hlen, hx⟩
      refine ⟨t, ?_, ?_, hx⟩
      · rw [mhLoop, hit]
        exact ht
      · simp only [List.length_append, List.length_singleton] at hlen
        omega

/-- The accepted counter grows by at most one per iteration: over k successful
iterations it grows by at most k. -/
theorem mhLoop_accepted_le (lt : List ℝ → RVal) (prop : List ℝ → List ℝ → List ℝ)
    (pr : ℕ → List ℝ) (u : ℕ → ℝ) :
    ∀ (k i : ℕ) (s t : MHState), mhLoop lt prop pr u i k s = Except.ok t →
      t.accepted ≤ s.accepted + k := by
  intro k
  induction k with
  | zero =>
    intro i s t h
    rw [mhLoop, Except.ok.injEq] at h
    subst h
    omega
  | succ k ih =>
    intro i s t h
    rw [mhLoop] at h
    cases hit : mhIter lt prop pr u i s with
    | error e =>
      rw [hit] at h
      exact absurd h (by simp)
    | ok s1 =>
      rw [hit] at h
      have hs1 := mhIter_ok_cases lt prop pr u i s s1 hit
      have := ih (i + 1) s1 t h
      rcases hs1.1 with ⟨_, ha⟩ | ⟨_, ha⟩ <;> omega

/-- Claim C1: for every n > 0 and every logtarget/proposal pair, the sampler
run produces exactly n chain entries, one per iteration; on a rejected
iteration the entry recorded equals the previous state, so the length is n
regardless of how many proposals are accepted. -/
theorem mh_chain_length (lt : List ℝ → RVal) (prop : List ℝ → List ℝ → List ℝ)
    (pr : ℕ → List ℝ) (u : ℕ → ℝ) (x0 : List ℝ) (n : ℕ)
    (hx : x0.length = 2) (hp : ∀ x r, (prop x r).length = 2) (_hn : 0 < n) :
    (∃ s : MHState, mhRun lt prop pr u x0 n = Except.ok s ∧ s.chain.length = n) ∧
    (∀ (i : ℕ) (s : MHState),
      acceptTest (u i) (lt (prop s.x (pr i))) (lt s.x) = false → s.x.length = 2 →
      mhIter lt prop pr u i s = Except.ok ⟨s.x, s.chain ++ [s.x], s.accepted⟩) := by
  constructor
  · rcases mhLoop_ok lt prop pr u hp n 0 ⟨x0, [], 0⟩ hx with ⟨t, ht, hlen, _⟩
    exact ⟨t, ht, by simpa using hlen⟩
  · intro i s hb hsx
    exact mhIter_reject lt prop pr u i s hb hsx

/-- Witness for C1 at a concrete input: n = 2 iterations from [0, 0]. -/
theorem mh_chain_length_witness :
    ([0, 0] : List ℝ).length = 2 ∧ (0 : ℕ) < 2 ∧
    (∃ s : MHState,
      mhRun (fun _ => RVal.fin 0) (fun _ _ => [0, 0]) (fun _ => []) (fun _ => 0)
        [0, 0] 2 = Except.ok s ∧ s.chain.length = 2) :=
  ⟨rfl, by norm_num,
    (mh_chain_length (fun _ => RVal.fin 0) (fun _ _ => [0, 0]) (fun _ => []) (fun _ => 0)
      [0, 0] 2 rfl (fun _ _ => rfl) (by norm_num)).1⟩

/-- Claim C8: the accepted counter of any successful run is at most n (it
starts at 0 and is incremented at most once per iteration). -/
theorem mh_accepted_le_n (lt : List ℝ → RVal) (prop : List ℝ → List ℝ → List ℝ)
    (pr : ℕ → List ℝ) (u : ℕ → ℝ) (x0 : List ℝ) (n : ℕ) (s : MHState)
    (h : mhRun lt prop pr u x0 n = Except.ok s) : s.accepted ≤ n := by
  simpa using mhLoop_accepted_le lt prop pr u n 0 ⟨x0, [], 0⟩ s h

/-- Claim C4: two runs given random sources producing the same sequences of
variates, the same initial state, n, logtarget and proposal, return identical
results and have identical loop outcomes (hence identical chains and accepted
counts). -/
theorem mh_deterministic (lt : List ℝ → RVal) (prop : List ℝ → List ℝ → List ℝ)
    (pr1 pr2 : ℕ → List ℝ) (u1 u2 : ℕ → ℝ) (x0 : List ℝ) (n : ℤ)
    (hu : ∀ i, u1 i = u2 i) (hpr : ∀ i, pr1 i = pr2 i) :
    metropolis_hastings lt prop pr1 u1 x0 n = metropolis_hastings lt prop pr2 u2 x0 n ∧
    mhRun lt prop pr1 u1 x0 n.toNat = mhRun lt prop pr2 u2 x0 n.toNat := by
  have hueq : u1 = u2 := funext hu
  have hpreq : pr1 = pr2 := funext hpr
  subst hueq
  subst hpreq
  exact ⟨rfl, rfl⟩

/-- Witness for C4 at a concrete input: two syntactically different but
pointwise equal streams. -/
theorem mh_deterministic_witness :
    (∀ i : ℕ, (0 : ℝ) = ((fun j => (j : ℝ) * 0) i)) ∧
    metropolis_hastings (fun _ => RVal.fin 0) (fun x _ => x) (fun _ => []) (fun _ => 0)
        [0, 0] 1 =
      metropolis_hastings (fun _ => RVal.fin 0) (fun x _ => x) (fun _ => [])
        (fun j => (j : ℝ) * 0) [0, 0] 1 := by
  have hu : ∀ i : ℕ, (0 : ℝ) = (i : ℝ) * 0 := by
    intro i
    ring
  exact ⟨hu,
    (mh_deterministic (fun _ => RVal.fin 0) (fun x _ => x) (fun _ => []) (fun _ => [])
      (fun _ => 0) (fun j => (j : ℝ) * 0) [0, 0] 1 hu (fun _ => rfl)).1⟩

/-- Unfolding step for the loop at a successful iteration. -/
theorem mhLoop_succ_ok (lt : List ℝ → RVal) (prop : List ℝ → List ℝ → List ℝ)
    (pr : ℕ → List ℝ) (u : ℕ → ℝ) (i k : ℕ) (s t : MHState)
    (h : mhIter lt prop pr u i s = Except.ok t) :
    mhLoop lt prop pr u i (k + 1) s = mhLoop lt prop pr u (i + 1) k t := by
  rw [mhLoop, h]

/-- Witness for C8 at a concrete input: a one-iteration run whose NaN ratio
rejects the proposal, giving accepted = 0 ≤ 1. -/
theorem mh_accepted_le_n_witness :
    mhRun (fun _ => RVal.negInf) (fun _ _ => [0, 0]) (fun _ => []) (fun _ => 0) [0, 0] 1 =
      Except.ok ⟨[0, 0], [[0, 0]], 0⟩ ∧
    (MHState.mk [0, 0] [[0, 0]] 0).accepted ≤ 1 := by
  have hb : acceptTest (0 : ℝ) RVal.negInf RVal.negInf = false := by
    unfold acceptTest
    rw [show RVal.sub RVal.negInf RVal.negInf = RVal.nan from rfl]
    exact RVal.lt_nan _
  have hit : mhIter (fun _ => RVal.negInf) (fun _ _ => [0, 0]) (fun _ => []) (fun _ => 0)
      0 ⟨[0, 0], [], 0⟩ = Except.ok ⟨[0, 0], [[0, 0]], 0⟩ := by
    have h := mhIter_reject (fun _ => RVal.negInf) (fun _ _ => [0, 0]) (fun _ => [])
      (fun _ => 0) 0 ⟨[0, 0], [], 0⟩ hb rfl
    simpa using h
  have hrun : mhRun (fun _ => RVal.negInf) (fun _ _ => [0, 0]) (fun _ => []) (fun _ => 0)
      [0, 0] 1 = Except.ok ⟨[0, 0], [[0, 0]], 0⟩ := by
    unfold mhRun
    rw [show (1 : ℕ) = 0 + 1 from rfl, mhLoop_succ_ok _ _ _ _ _ _ _ _ hit, mhLoop]
  exact ⟨hrun, mh_accepted_le_n (fun _ => RVal.negInf) (fun _ _ => [0, 0]) (fun _ => [])
    (fun _ => 0) [0, 0] 1 ⟨[0, 0], [[0, 0]], 0⟩ hrun⟩

/-- Claim C2, counterexample: two runs with the same arguments except for the
target (a flat target versus an all-negative-infinity target) end with
different accepted counters (1 versus 0) yet metropolis_hastings returns the
same value for both, because only the chain is returned to the caller — the
accepted count is not part of the return value. -/
theorem mh_accepted_not_returned :
    mhRun (fun _ => RVal.fin 0) (fun x _ => x) (fun _ => []) (fun _ => 0) [0, 0] 1 =
      Except.ok ⟨[0, 0], [[0, 0]], 1⟩ ∧
    mhRun (fun _ => RVal.negInf) (fun x _ => x) (fun _ => []) (fun _ => 0) [0, 0] 1 =
      Except.ok ⟨[0, 0], [[0, 0]], 0⟩ ∧
    metropolis_hastings (fun _ => RVal.fin 0) (fun x _ => x) (fun _ => []) (fun _ => 0)
        [0, 0] 1 =
      metropolis_hastings (fun _ => RVal.negInf) (fun x _ => x) (fun _ => []) (fun _ => 0)
        [0, 0] 1 ∧
    (MHState.mk [0, 0] [[0, 0]] 1).accepted ≠ (MHState.mk [0, 0] [[0, 0]] 0).accepted := by
  have hbA : acceptTest (0 : ℝ) (RVal.fin 0) (RVal.fin 0) = true :=
    acceptTest_flat 0 0 le_rfl (by norm_num)
  have hitA : mhIter (fun _ => RVal.fin 0) (fun x _ => x) (fun _ => []) (fun _ => 0)
      0 ⟨[0, 0], [], 0⟩ = Except.ok ⟨[0, 0], [[0, 0]], 1⟩ := by
    have h := mhIter_accept (fun _ => RVal.fin 0) (fun x _ => x) (fun _ => [])
      (fun _ => 0) 0 ⟨[0, 0], [], 0⟩ hbA rfl
    simpa using h
  have hrunA : mhRun (fun _ => RVal.fin 0) (fun x _ => x) (fun _ => []) (fun _ => 0)
      [0, 0] 1 = Except.ok ⟨[0, 0], [[0, 0]], 1⟩ := by
    unfold mhRun
    rw [show (1 : ℕ) = 0 + 1 from rfl, mhLoop_succ_ok _ _ _ _ _ _ _ _ hitA, mhLoop]
  have hbB : acceptTest (0 : ℝ) RVal.negInf RVal.negInf = false := by
    unfold acceptTest
    rw [show RVal.sub RVal.negInf RVal.negInf = RVal.nan from rfl]
    exact RVal.lt_nan _
  have hitB : mhIter (fun _ => RVal.negInf) (fun x _ => x) (fun _ => []) (fun _ => 0)
      0 ⟨[0, 0], [], 0⟩ = Except.ok ⟨[0, 0], [[0, 0]], 0⟩ := by
    have h := mhIter_reject (fun _ => RVal.negInf) (fun x _ => x) (fun _ => [])
      (fun _ => 0) 0 ⟨[0, 0], [], 0⟩ hbB rfl
    simpa using h
  have hrunB : mhRun (fun _ => RVal.negInf) (fun x _ => x) (fun _ => []) (fun _ => 0)
      [0, 0] 1 = Except.ok ⟨[0, 0], [[0, 0]], 0⟩ := by
    unfold mhRun
    rw [show (1 : ℕ) = 0 + 1 from rfl, mhLoop_succ_ok _ _ _ _ _ _ _ _ hitB, mhLoop]
  refine ⟨hrunA, hrunB, ?_, by simp⟩
  unfold metropolis_hastings
  rw [show ((1 : ℤ).toNat) = 1 from rfl, hrunA, hrunB]

/-- Claim C2, amended: for n > 0 the value metropolis_hastings returns to the
caller is exactly the chain of the run (mapped through the error cases); the
accepted count is only printed as a rate diagnostic, never returned. -/
theorem mh_return_value_is_chain (lt : List ℝ → RVal) (prop : List ℝ → List ℝ → List ℝ)
    (pr : ℕ → List ℝ) (u : ℕ → ℝ) (x0 : List ℝ) (n : ℤ) (hn : 0 < n) :
    metropolis_hastings lt prop pr u x0 n =
      Except.map MHState.chain (mhRun lt prop pr u x0 n.toNat) := by
  unfold metropolis_hastings
  rw [if_neg (by omega : ¬ n < 0)]
  cases h : mhRun lt prop pr u x0 n.toNat with
  | error e => rfl
  | ok s =>
    show (if n = 0 then Except.error MHError.zeroDivision else Except.ok s.chain) = _
    rw [if_neg (by omega : ¬ n = 0)]
    rfl

/-- Witness for the amended C2 at a concrete input: n = 1. -/
theorem mh_return_value_is_chain_witness :
    (0 : ℤ) < 1 ∧
    metropolis_hastings (fun _ => RVal.fin 0) (fun x _ => x) (fun _ => []) (fun _ => 0)
        [0, 0] 1 =
      Except.map MHState.chain
        (mhRun (fun _ => RVal.fin 0) (fun x _ => x) (fun _ => []) (fun _ => 0)
          [0, 0] (1 : ℤ).toNat) :=
  ⟨by norm_num,
    mh_return_value_is_chain (fun _ => RVal.fin 0) (fun x _ => x) (fun _ => [])
      (fun _ => 0) [0, 0] 1 (by norm_num)⟩

/-- Claim C3, counterexample: at n = 0 the loop body is skipped but the
acceptance-rate print divides by n, so the run fails with ZeroDivisionError,
not with the InvalidArgument condition the claim names; there is no explicit
validation of n. -/
theorem mh_no_invalid_argument_check :
    metropolis_hastings (fun _ => RVal.fin 0) (fun x _ => x) (fun _ => []) (fun _ => 0)
        [0, 0] 0 = Except.error MHError.zeroDivision ∧
    MHError.zeroDivision ≠ MHError.invalidArgument := by
  constructor
  · unfold metropolis_hastings
    rw [if_neg (by omega : ¬ (0 : ℤ) < 0)]
    rfl
  · decide

/-- Claim C3, amended: for every n ≤ 0 the sampler fails and returns no
chain, but not through an InvalidArgument check: for n < 0 the allocation
np.zeros(2 * n) raises ValueError (negative dimensions) before the loop, and
for n = 0 the loop runs zero iterations and the acceptance-rate print raises
ZeroDivisionError. -/
theorem mh_nonpositive_n_fails (lt : List ℝ → RVal) (prop : List ℝ → List ℝ → List ℝ)
    (pr : ℕ → List ℝ) (u : ℕ → ℝ) (x0 : List ℝ) (n : ℤ) (hn : n ≤ 0) :
    metropolis_hastings lt prop pr u x0 n =
      (if n < 0 then Except.error MHError.negativeDimensions
       else Except.error MHError.zeroDivision) := by
  unfold metropolis_hastings
  by_cases h : n < 0
  · rw [if_pos h, if_pos h]
  · have h0 : n = 0 := le_antisymm hn (not_lt.mp h)
    subst h0
    rw [if_neg h, if_neg h]
    rfl

/-- Witness for the amended C3 at concrete inputs n = 0 and n = -1. -/
theorem mh_nonpositive_n_fails_witness :
    ((0 : ℤ) ≤ 0 ∧
      metropolis_hastings (fun _ => RVal.fin 0) (fun x _ => x) (fun _ => []) (fun _ => 0)
          [0, 0] 0 =
        (if (0 : ℤ) < 0 then Except.error MHError.negativeDimensions
         else Except.error MHError.zeroDivision)) ∧
    ((-1 : ℤ) ≤ 0 ∧
      metropolis_hastings (fun _ => RVal.fin 0) (fun x _ => x) (fun _ => []) (fun _ => 0)
          [0, 0] (-1) =
        (if (-1 : ℤ) < 0 then Except.error MHError.negativeDimensions
         else Except.error MHError.zeroDivision)) :=
  ⟨⟨le_refl 0,
      mh_nonpositive_n_fails (fun _ => RVal.fin 0) (fun x _ => x) (fun _ => [])
        (fun _ => 0) [0, 0] 0 (le_refl 0)⟩,
    ⟨by norm_num,
      mh_nonpositive_n_fails (fun _ => RVal.fin 0) (fun x _ => x) (fun _ => [])
        (fun _ => 0) [0, 0] (-1) (by norm_num)⟩⟩

/-- Loop invariant for a flat target: every iteration accepts, so k successful
iterations add exactly k to the accepted counter. -/
theorem mhLoop_flat (lt : List ℝ → RVal) (prop : List ℝ → List ℝ → List ℝ)
    (pr : ℕ → List ℝ) (u : ℕ → ℝ) (c : ℝ) (hlt : ∀ x, lt x = RVal.fin c)
    (hu : ∀ i, 0 ≤ u i ∧ u i < 1) (hp : ∀ x r, (prop x r).length = 2) :
    ∀ (k i : ℕ) (s : MHState), s.x.length = 2 →
      ∃ t : MHState, mhLoop lt prop pr u i k s = Except.ok t ∧
        t.accepted = s.accepted + k ∧ t.x.length = 2 := by
  intro k
  induction k with
  | zero =>
    intro i s hs
    exact ⟨s, rfl, by omega, hs⟩
  | succ k ih =>
    intro i s _hs
    have hb : acceptTest (u i) (lt (prop s.x (pr i))) (lt s.x) = true := by
      rw [hlt, hlt]
      exact acceptTest_flat (u i) c (hu i).1 (hu i).2
    have hit := mhIter_accept lt prop pr u i s hb (hp s.x (pr i))
    rcases ih (i + 1) ⟨prop s.x (pr i), s.chain ++ [prop s.x (pr i)], s.accepted + 1⟩
      (hp s.x (pr i)) with ⟨t, ht, ha, hx⟩
    refine ⟨t, ?_, ?_, hx⟩
    · rw [mhLoop, hit]
      exact ht
    · simp only at ha
      omega

/-- Claim C5: with a constant (flat) logtarget, every one of the n proposals
is accepted for every sequence of uniform draws in [0, 1) — the log-density
difference is 0 and np.log(u) < 0 holds for every u the source can produce —
so the accepted count equals n (acceptance rate exactly 100 percent). -/
theorem mh_flat_target_accepts_all (lt : List ℝ → RVal)
    (prop : List ℝ → List ℝ → List ℝ) (pr : ℕ → List ℝ) (u : ℕ → ℝ)
    (x0 : List ℝ) (n : ℕ) (c : ℝ)
    (hlt : ∀ x, lt x = RVal.fin c) (hu : ∀ i, 0 ≤ u i ∧ u i < 1)
    (hx : x0.length = 2) (hp : ∀ x r, (prop x r).length = 2) (_hn : 0 < n) :
    ∃ s : MHState, mhRun lt prop pr u x0 n = Except.ok s ∧ s.accepted = n := by
  rcases mhLoop_flat lt prop pr u c hlt hu hp n 0 ⟨x0, [], 0⟩ hx with ⟨t, ht, ha, _⟩
  exact ⟨t, ht, by simpa using ha⟩

/-- Witness for C5 at a concrete input: flat target at level 0, all uniform
draws equal to 0, n = 2. -/
theorem mh_flat_target_accepts_all_witness :
    (∀ i : ℕ, (0 : ℝ) ≤ (fun _ => (0 : ℝ)) i ∧ (fun _ => (0 : ℝ)) i < 1) ∧
    (∃ s : MHState,
      mhRun (fun _ => RVal.fin 0) (fun _ _ => [0, 0]) (fun _ => []) (fun _ => 0)
          [0, 0] 2 = Except.ok s ∧ s.accepted = 2) :=
  ⟨fun _ => ⟨le_refl 0, by norm_num⟩,
    mh_flat_target_accepts_all (fun _ => RVal.fin 0) (fun _ _ => [0, 0]) (fun _ => [])
      (fun _ => 0) [0, 0] 2 0 (fun _ => rfl) (fun _ => ⟨le_refl 0, by norm_num⟩) rfl
      (fun _ _ => rfl) (by norm_num)⟩

/-- Loop invariant for a never-accept target: every candidate has log-density
negative infinity while the current state keeps a finite log-density, so the
state, the accepted counter and the appended entries never change. -/
theorem mhLoop_never (lt : List ℝ → RVal) (prop : List ℝ → List ℝ → List ℝ)
    (pr : ℕ → List ℝ) (u : ℕ → ℝ) (x0 : List ℝ) (a : ℝ)
    (hc : ∀ x r, lt (prop x r) = RVal.negInf) (h0 : lt x0 = RVal.fin a)
    (hx : x0.length = 2) :
    ∀ (k i : ℕ) (ch : List (List ℝ)) (acc : ℕ),
      mhLoop lt prop pr u i k ⟨x0, ch, acc⟩ =
        Except.ok ⟨x0, ch ++ List.replicate k x0, acc⟩ := by
  intro k
  induction k with
  | zero =>
    intro i ch acc
    simp [mhLoop]
  | succ k ih =>
    intro i ch acc
    have hb : acceptTest (u i) (lt (prop x0 (pr i))) (lt x0) = false := by
      rw [hc, h0]
      unfold acceptTest
      rw [show RVal.sub RVal.negInf (RVal.fin a) = RVal.negInf from rfl]
      exact RVal.lt_negInf _
    have hit : mhIter lt prop pr u i ⟨x0, ch, acc⟩ = Except.ok ⟨x0, ch ++ [x0], acc⟩ := by
      simpa using mhIter_reject lt prop pr u i ⟨x0, ch, acc⟩ hb hx
    rw [mhLoop, hit]
    exact (ih (i + 1) (ch ++ [x0]) acc).trans (by simp [List.replicate_succ])

/-- Claim C6: if the logtarget is negative infinity on every candidate the
proposal produces while the initial state has finite log-density, every
proposal is rejected: the accepted count is 0 and the chain is n identical
copies of the initial state. -/
theorem mh_never_accept_target (lt : List ℝ → RVal)
    (prop : List ℝ → List ℝ → List ℝ) (pr : ℕ → List ℝ) (u : ℕ → ℝ)
    (x0 : List ℝ) (n : ℕ) (a : ℝ)
    (hc : ∀ x r, lt (prop x r) = RVal.negInf) (h0 : lt x0 = RVal.fin a)
    (hx : x0.length = 2) (_hn : 0 < n) :
    mhRun lt prop pr u x0 n = Except.ok ⟨x0, List.replicate n x0, 0⟩ := by
  have h := mhLoop_never lt prop pr u x0 a hc h0 hx n 0 [] 0
  simpa using h

/-- Witness for C6 at a concrete input: target negative infinity off the
start, n = 2. -/
theorem mh_never_accept_target_witness :
    (∀ (x r : List ℝ),
      (fun y : List ℝ => if y = [0, 0] then RVal.fin 0 else RVal.negInf)
          ((fun _ _ : List ℝ => ([1, 1] : List ℝ)) x r) = RVal.negInf) ∧
    mhRun (fun y : List ℝ => if y = [0, 0] then RVal.fin 0 else RVal.negInf)
        (fun _ _ : List ℝ => ([1, 1] : List ℝ)) (fun _ => []) (fun _ => 0) [0, 0] 2 =
      Except.ok ⟨[0, 0], List.replicate 2 [0, 0], 0⟩ := by
  have hc : ∀ (x r : List ℝ),
      (fun y : List ℝ => if y = [0, 0] then RVal.fin 0 else RVal.negInf)
        ((fun _ _ : List ℝ => ([1, 1] : List ℝ)) x r) = RVal.negInf := by
    intro x r
    norm_num
  exact ⟨hc,
    mh_never_accept_target
      (fun y : List ℝ => if y = [0, 0] then RVal.fin 0 else RVal.negInf)
      (fun _ _ : List ℝ => ([1, 1] : List ℝ)) (fun _ => []) (fun _ => 0) [0, 0] 2 0 hc
      (by norm_num) rfl (by norm_num)⟩

/-- Claim C7: when the log-density is negative infinity at both the current
state and the candidate, the log-acceptance difference is NaN; since an IEEE
comparison with NaN is false, the iteration deterministically rejects the
candidate (state and counter unchanged, the old state recorded) rather than
propagating NaN into the decision. -/
theorem mh_nan_tiebreak_rejects (lt : List ℝ → RVal)
    (prop : List ℝ → List ℝ → List ℝ) (pr : ℕ → List ℝ) (u : ℕ → ℝ)
    (i : ℕ) (s : MHState)
    (hs : lt s.x = RVal.negInf) (hc : lt (prop s.x (pr i)) = RVal.negInf)
    (hx : s.x.length = 2) :
    RVal.sub (lt (prop s.x (pr i))) (lt s.x) = RVal.nan ∧
    (∀ v : RVal, RVal.lt v RVal.nan = false) ∧
    mhIter lt prop pr u i s = Except.ok ⟨s.x, s.chain ++ [s.x], s.accepted⟩ := by
  have hsub : RVal.sub (lt (prop s.x (pr i))) (lt s.x) = RVal.nan := by
    rw [hs, hc]
    rfl
  refine ⟨hsub, RVal.lt_nan, ?_⟩
  apply mhIter_reject
  · unfold acceptTest
    rw [hsub]
    exact RVal.lt_nan _
  · exact hx

/-- Witness for C7 at a concrete input: target constantly negative infinity. -/
theorem mh_nan_tiebreak_rejects_witness :
    RVal.sub RVal.negInf RVal.negInf = RVal.nan ∧
    mhIter (fun _ => RVal.negInf) (fun x _ => x) (fun _ => []) (fun _ => 0) 0
        ⟨[0, 0], [], 0⟩ =
      Except.ok ⟨[0, 0], [] ++ [[0, 0]], 0⟩ := by
  have h := mh_nan_tiebreak_rejects (fun _ => RVal.negInf) (fun x _ => x) (fun _ => [])
    (fun _ => 0) 0 ⟨[0, 0], [], 0⟩ rfl rfl rfl
  exact ⟨h.1, h.2.2⟩

/-- Claim C9: the sampler hardcodes dimension 2 — the chain buffer has shape
(2, n) and each iteration records x.reshape(2,).  For any n ≥ 1, any initial
state whose element count is not 2 and any dimension-preserving proposal (the
contract type of the proposal: D-dimensional state to D-dimensional
candidate), the very first iteration fails at the chain-recording step and
the whole call raises the reshape ValueError instead of producing a chain. -/
theorem mh_dimension_hardcoded (lt : List ℝ → RVal) (prop : List ℝ → List ℝ → List ℝ)
    (pr : ℕ → List ℝ) (u : ℕ → ℝ) (x0 : List ℝ) (n : ℤ)
    (hx : x0.length ≠ 2) (hp : ∀ x r, (prop x r).length = x.length) (hn : 1 ≤ n) :
    mhIter lt prop pr u 0 ⟨x0, [], 0⟩ = Except.error MHError.cannotReshape ∧
    metropolis_hastings lt prop pr u x0 n = Except.error MHError.cannotReshape := by
  have hit : mhIter lt prop pr u 0 ⟨x0, [], 0⟩ = Except.error MHError.cannotReshape := by
    apply mhIter_reshape_fails
    · show (prop x0 (pr 0)).length ≠ 2
      rw [hp]
      exact hx
    · exact hx
  refine ⟨hit, ?_⟩
  have hrun : mhRun lt prop pr u x0 n.toNat = Except.error MHError.cannotReshape := by
    rcases (show ∃ k, n.toNat = k + 1 from ⟨n.toNat - 1, by omega⟩) with ⟨k, hk⟩
    unfold mhRun
    rw [hk, mhLoop, hit]
  unfold metropolis_hastings
  rw [if_neg (by omega : ¬ n < 0), hrun]

/-- Witness for C9 at a concrete input: a 3-element initial state with the
identity proposal and n = 1. -/
theorem mh_dimension_hardcoded_witness :
    ([0, 0, 0] : List ℝ).length ≠ 2 ∧
    metropolis_hastings (fun _ => RVal.fin 0) (fun x _ => x) (fun _ => []) (fun _ => 0)
        [0, 0, 0] 1 = Except.error MHError.cannotReshape :=
  ⟨by norm_num,
    (mh_dimension_hardcoded (fun _ => RVal.fin 0) (fun x _ => x) (fun _ => [])
      (fun _ => 0) [0, 0, 0] 1 (by norm_num) (fun _ _ => rfl) (by norm_num)).2⟩

/-- The vectorized mask-sum counts exactly the points inside the quarter
circle. -/
theorem npSumBool_eq_countP (pts : List (ℝ × ℝ)) :
    npSumBool (circleMask pts) =
      pts.countP fun p => decide (p.1 * p.1 + p.2 * p.2 < 1) := by
  induction pts with
  | nil => rfl
  | cons p ps ih =>
    have hcons : circleMask (p :: ps) =
        decide (p.1 * p.1 + p.2 * p.2 < 1) :: circleMask ps := rfl
    rw [hcons, List.countP_cons]
    show (if decide (p.1 * p.1 + p.2 * p.2 < 1) then 1 else 0) + npSumBool (circleMask ps) = _
    rw [ih]
    by_cases h : p.1 * p.1 + p.2 * p.2 < 1
    · simp [h]
      omega
    · simp [h]

/-- The for-loop counter counts exactly the points inside the quarter
circle. -/
theorem loopCount_eq_countP (pts : List (ℝ × ℝ)) :
    loopCount pts = pts.countP fun p => decide (p.1 * p.1 + p.2 * p.2 < 1) := by
  have key : ∀ (l : List (ℝ × ℝ)) (a : ℕ),
      l.foldl (fun count p => if p.1 * p.1 + p.2 * p.2 < 1 then count + 1 else count) a =
        a + l.countP fun p => decide (p.1 * p.1 + p.2 * p.2 < 1) := by
    intro l
    induction l with
    | nil =>
      intro a
      simp
    | cons p ps ih =>
      intro a
      rw [List.foldl_cons, List.countP_cons]
      by_cases h : p.1 * p.1 + p.2 * p.2 < 1
      · rw [if_pos h, ih]
        simp [h]
        omega
      · rw [if_neg h, ih]
        simp [h]
  unfold loopCount
  rw [key]
  omega

/-- Claim C10: the vectorized and the for-loop pi estimators compute the same
function of the sampled points: for a non-empty point list both equal
4 times the count of points with x^2 + y^2 < 1 divided by n, so on identical
point sequences the two estimates are equal. -/
theorem pi_estimators_agree (pts : List (ℝ × ℝ)) (_hn : 0 < pts.length) :
    pi_estimate pts =
      4 * ((pts.countP fun p => decide (p.1 * p.1 + p.2 * p.2 < 1) : ℕ) : ℝ) /
        (pts.length : ℝ) ∧
    pi_est pts =
      4 * ((pts.countP fun p => decide (p.1 * p.1 + p.2 * p.2 < 1) : ℕ) : ℝ) /
        (pts.length : ℝ) ∧
    pi_estimate pts = pi_est pts := by
  unfold pi_estimate pi_est
  rw [npSumBool_eq_countP, loopCount_eq_countP]
  refine ⟨by ring, by ring, rfl⟩

/-- Witness for C10 at a concrete input: the two points (0, 0) and (1, 1),
one inside and one outside the quarter circle. -/
theorem pi_estimators_agree_witness :
    (0 : ℕ) < ([((0 : ℝ), (0 : ℝ)), (1, 1)] : List (ℝ × ℝ)).length ∧
    pi_estimate [((0 : ℝ), (0 : ℝ)), (1, 1)] = pi_est [((0 : ℝ), (0 : ℝ)), (1, 1)] :=
  ⟨by norm_num,
    (pi_estimators_agree [((0 : ℝ), (0 : ℝ)), (1, 1)] (by norm_num)).2.2⟩
